import Mathlib

/-
Verification of the mvt-reader vector tile decoder.

The development shallowly embeds the decoding routines of the crate:
the streaming geometry command decoder (geometry.rs, GeometryIterator),
the eager geometry decoder (lib.rs, parse_geometry), the coordinate
storage with its incremental shoelace area accumulator, the tag
resolver (lib.rs, parse_tags), the eager feature assembly
(lib.rs, Reader::get_features) and the lazy feature iterator
(feature_iter.rs, FeatureIterator::next).

Modelling conventions:
- u32 stream cells are natural numbers; the signed 32-bit cursor is
  modelled as an integer with explicit clamping at the i32 bounds,
  exactly as saturating_add and the checked_add-with-clip of the source.
- f32 coordinate and area arithmetic is idealised as exact rational
  arithmetic.
- The Rust iterators are modelled by their drain: the ordered list of
  items produced by repeatedly advancing them, stopping at exhaustion
  or at the first error.
- HashMap results are modelled extensionally by the chronological list
  of insertions together with a last-insertion-wins lookup.
-/

namespace Mvt

/-- Largest signed 32-bit integer. -/
def int32Max : ℤ := 2147483647

/-- Smallest signed 32-bit integer. -/
def int32Min : ℤ := -2147483648

/-- Zigzag decoding of a parameter integer, from the source expression
((v >> 1) as i32) ^ -((v & 1) as i32): for a 32-bit v the xor with -1
is two-complement negation minus one, so the decoded delta is v / 2 for
even v and -(v / 2) - 1 for odd v. -/
def zigzag (v : ℕ) : ℤ :=
  if v % 2 = 0 then (v / 2 : ℤ) else -((v / 2 : ℤ)) - 1

/-- i32 saturating addition, the cursor update of the streaming decoder
(geometry.rs, saturating_add). -/
def satAdd32 (a b : ℤ) : ℤ :=
  max (min (a + b) int32Max) int32Min

/-- The cursor update of the eager decoder (lib.rs): checked_add, and on
overflow in either direction the component is clipped to i32::MAX. -/
def clippedAdd32 (a b : ℤ) : ℤ :=
  if a + b < int32Min ∨ int32Max < a + b then int32Max else a + b

/-- Geometry kind of a feature (vector_tile GeomType). -/
inductive GeomType where
  | unknown
  | point
  | linestring
  | polygon
deriving DecidableEq, Repr

/-- Conversion of the raw geometry-type integer into a GeomType
(prost-generated GeomType::try_from): 0..3 map to the variants, any
other value is a conversion error. -/
def geomTypeTryFrom (t : ℕ) : Option GeomType :=
  match t with
  | 0 => some .unknown
  | 1 => some .point
  | 2 => some .linestring
  | 3 => some .polygon
  | _ => none

/-- Error taxonomy of the crate (error.rs), collapsed to the underlying
cause carried by ParserError. The ioParse variant models the io error
raised by Feature::from_raw on a feature with no type field. -/
inductive Err where
  | decode
  | version (layerName : String) (v : ℕ)
  | tags
  | geometry
  | ioParse
deriving DecidableEq, Repr

/-- Coordinate storage (geometry.rs, FlatCoordinateStorage together with
the default methods of the CoordinateStorage trait). Raw coordinates are
kept as a list of pairs, which is the even-length flat f32 vector of the
source read two cells at a time; the transformed buffer under the
identity transform duplicates the raw one and is not repeated here. -/
structure Storage where
  coords : List (ℚ × ℚ)
  accumulated_area : ℚ
deriving DecidableEq, Repr

/-- A fresh empty storage (new_empty). -/
def Storage.empty : Storage := ⟨[], 0⟩

instance : Inhabited Storage := ⟨Storage.empty⟩

/-- First raw coordinate (CoordinateStorage::first). -/
def Storage.first (s : Storage) : Option (ℚ × ℚ) := s.coords.head?

/-- Last raw coordinate (CoordinateStorage::last). -/
def Storage.last (s : Storage) : Option (ℚ × ℚ) := s.coords.getLast?

/-- push of the CoordinateStorage trait: if a previous coordinate
exists, first add the cross term prev_x * y - x * prev_y to the running
area accumulator, then append the coordinate. -/
def Storage.push (s : Storage) (x y : ℚ) : Storage :=
  match s.coords.getLast? with
  | some (px, py) => ⟨s.coords ++ [(x, y)], s.accumulated_area + px * y - x * py⟩
  | none => ⟨s.coords ++ [(x, y)], s.accumulated_area⟩

/-- clear of the CoordinateStorage trait: empty the buffer and reset the
accumulator to zero. -/
def Storage.clear (_ : Storage) : Storage := ⟨[], 0⟩

/-- get_accumulated_area of the CoordinateStorage trait: when at least
two coordinates are stored, add the closing-edge cross term
last_x * first_y - first_x * last_y to the accumulator and halve;
otherwise zero. -/
def Storage.get_accumulated_area (s : Storage) : ℚ :=
  if 2 ≤ s.coords.length then
    match s.coords.head?, s.coords.getLast? with
    | some (fx, fy), some (lx, ly) =>
        (s.accumulated_area + lx * fy - fx * ly) / 2
    | _, _ => 0
  else 0

/-- Push a whole list of coordinates in order. -/
def Storage.pushList (s : Storage) (pts : List (ℚ × ℚ)) : Storage :=
  pts.foldl (fun t p => t.push p.1 p.2) s

/-- The geometry parts emitted by the streaming decoder (geometry.rs,
enum Geometry): parse_next only ever produces the Point, LineString and
Polygon variants, so only those are modelled. -/
inductive Part where
  | point (x y : ℚ)
  | lineString (s : Storage)
  | polygon (exterior : Storage) (holes : List Storage)
deriving DecidableEq, Repr

/-- Mutable state of the streaming GeometryIterator: cursor, current
coordinate accumulator, pending rings, and the ReadingParameters data
(remaining parameter cells and active command id); pcount = 0 is the
ReadingCommand state. -/
structure IterState where
  cur : ℤ × ℤ
  st : Storage
  pending : List Storage
  pcount : ℕ
  cid : ℕ
deriving Repr

/-- Initial decoder state for one feature (GeometryIterator::new). -/
def initState : IterState := ⟨(0, 0), Storage.empty, [], 0, 0⟩

/-- One stream cell of GeometryIterator::parse_next. With pcount = 0 the
cell is a command integer: MoveTo flushes a finished LineString for
linestring geometry, LineTo only arms the parameter counter, ClosePath
completes a ring (an empty accumulator is a geometry error; the first
ring unconditionally becomes the pending exterior; a later ring with
strictly positive closed area flushes the pending set as a Polygon part
and starts a new pending set; otherwise it is appended as a hole), and
any other command id is ignored. With pcount > 0 the cell is a zigzag
parameter: an even remaining count updates cursor x by saturating
addition, an odd one updates cursor y and then either emits a Point part
(point geometry under a MoveTo) or pushes the cursor into the
accumulator. -/
def parse_step (g : GeomType) (s : IterState) (v : ℕ) :
    Except Err (List Part × IterState) :=
  if s.pcount = 0 then
    let cid := v % 8
    let count := (v / 8) * 2
    if cid = 1 then
      if g = .linestring ∧ ¬ s.st.coords.isEmpty then
        .ok ([Part.lineString s.st],
          { s with st := Storage.empty, pcount := count, cid := 1 })
      else
        .ok ([], { s with pcount := count, cid := 1 })
    else if cid = 2 then
      .ok ([], { s with pcount := count, cid := 2 })
    else if cid = 7 then
      if s.st.coords.isEmpty then
        .error .geometry
      else
        match s.pending with
        | [] => .ok ([], { s with st := Storage.empty, pending := [s.st] })
        | p :: ps =>
          if 0 < s.st.get_accumulated_area then
            if g = .polygon then
              .ok ([Part.polygon p ps],
                { s with st := Storage.empty, pending := [s.st] })
            else
              .ok ([], { s with st := Storage.empty, pending := [s.st] })
          else
            .ok ([], { s with st := Storage.empty, pending := p :: ps ++ [s.st] })
    else
      .ok ([], s)
  else
    let d := zigzag v
    if s.pcount % 2 = 0 then
      .ok ([], { s with cur := (satAdd32 s.cur.1 d, s.cur.2), pcount := s.pcount - 1 })
    else
      let y := satAdd32 s.cur.2 d
      if g = .point ∧ s.cid = 1 then
        .ok ([Part.point (s.cur.1 : ℚ) (y : ℚ)],
          { s with cur := (s.cur.1, y), pcount := s.pcount - 1 })
      else
        .ok ([], { s with cur := (s.cur.1, y), pcount := s.pcount - 1,
                          st := s.st.push (s.cur.1 : ℚ) (y : ℚ) })

/-- finish_parsing of the streaming decoder: at stream exhaustion a
linestring flushes a non-empty accumulator as a final LineString part, a
point emits nothing, and a polygon flushes the pending ring set with its
first ring as exterior and the rest as holes. -/
def finish_parsing (g : GeomType) (st : Storage) (pending : List Storage) :
    List Part :=
  match g with
  | .linestring => if st.coords.isEmpty then [] else [Part.lineString st]
  | .point => []
  | .polygon =>
    match pending with
    | [] => []
    | p :: ps => [Part.polygon p ps]
  | .unknown => []

/-- Drain of the streaming decoder from a given state: the ordered parts
it yields, the first error aborting, together with the final state. -/
def runState (g : GeomType) : List ℕ → IterState →
    Except Err (List Part × IterState)
  | [], s => .ok (finish_parsing g s.st s.pending, s)
  | v :: rest, s =>
    match parse_step g s v with
    | .error e => .error e
    | .ok (parts, s') =>
      match runState g rest s' with
      | .error e => .error e
      | .ok (parts', s'') => .ok (parts ++ parts', s'')

/-- Parts-only drain of the streaming decoder from a given state. -/
def run (g : GeomType) (data : List ℕ) (s : IterState) :
    Except Err (List Part) :=
  match runState g data s with
  | .error e => .error e
  | .ok (parts, _) => .ok parts

/-- The sequence of geometry parts produced by draining the streaming
GeometryIterator over a feature geometry (parse_geometry_iter followed
by iteration): an Unknown geometry kind fails immediately. -/
def parse_geometry_iter (g : GeomType) (data : List ℕ) :
    Except Err (List Part) :=
  if g = .unknown then .error .geometry
  else run g data initState

/-- Rings completed via ClosePath by a polygon command stream, phrased
after the wording of the design: it walks the stream with the same
cursor arithmetic and accumulator as the streaming decoder, records the
accumulator content at each ClosePath, fails on a ClosePath with an
empty accumulator, and discards dangling coordinates at stream end. The
third component of the state is the remaining parameter count. -/
def completed_rings : List ℕ → (ℤ × ℤ) → Storage → ℕ → Option (List Storage)
  | [], _, _, _ => some []
  | v :: rest, cur, st, 0 =>
    let cid := v % 8
    if cid = 1 ∨ cid = 2 then
      completed_rings rest cur st ((v / 8) * 2)
    else if cid = 7 then
      if st.coords.isEmpty then none
      else (completed_rings rest cur Storage.empty 0).map (st :: ·)
    else
      completed_rings rest cur st 0
  | v :: rest, cur, st, n + 1 =>
    let d := zigzag v
    if (n + 1) % 2 = 0 then
      completed_rings rest (satAdd32 cur.1 d, cur.2) st n
    else
      let y := satAdd32 cur.2 d
      completed_rings rest (cur.1, y) (st.push (cur.1 : ℚ) (y : ℚ)) n

/-- Ring classification of the streaming decoder replayed over a list of
completed rings: the first ring becomes the pending exterior
unconditionally; a later ring with strictly positive closed area flushes
the pending set as one Polygon part and starts a new pending set;
otherwise it joins the pending set as a hole; at the end the pending set
is flushed. -/
def classify_rings : List Storage → List Storage → List Part
  | [], [] => []
  | p :: ps, [] => [Part.polygon p ps]
  | [], r :: rs => classify_rings [r] rs
  | p :: ps, r :: rs =>
    if 0 < r.get_accumulated_area then
      Part.polygon p ps :: classify_rings [r] rs
    else
      classify_rings (p :: ps ++ [r]) rs

/-- Inner accumulation of shoelace_formula (lib.rs and geometry.rs): the
running sum of (v2.y - v1.y) * (v2.x + v1.x) over consecutive points,
threading the previous point. -/
def shoelaceGo : (ℚ × ℚ) → List (ℚ × ℚ) → ℚ
  | _, [] => 0
  | v1, v2 :: rest => (v2.2 - v1.2) * (v2.1 + v1.1) + shoelaceGo v2 rest

/-- shoelace_formula of the source: the wrap-around signed area of a
point list, seeded with the last point so the closing edge is included;
the source indexes points[n - 1] and is never called on an empty list,
modelled here as 0 in that unreachable case. -/
def shoelace_formula (points : List (ℚ × ℚ)) : ℚ :=
  match points.getLast? with
  | none => 0
  | some v1 => shoelaceGo v1 points * (1 / 2)

/-- The open-path shoelace sum: the sum of the cross terms
x_prev * y - x * y_prev over consecutive stored points, which is what
the storage accumulator holds before the closing edge is added. -/
def open_shoelace : List (ℚ × ℚ) → ℚ
  | [] => 0
  | [_] => 0
  | p :: q :: rest => (p.1 * q.2 - q.1 * p.2) + open_shoelace (q :: rest)

/-- The open shoelace sum of a point list continued from an optional
previous point, used to describe the accumulator of a storage whose
buffer may already hold coordinates. -/
def open_shoelace_from : Option (ℚ × ℚ) → List (ℚ × ℚ) → ℚ
  | _, [] => 0
  | none, p :: rest => open_shoelace_from (some p) rest
  | some v, p :: rest => (v.1 * p.2 - p.1 * v.2) + open_shoelace_from (some p) rest

/-- State of the eager parse_geometry loop (lib.rs): accumulated
coordinates, finished polygons, finished rings or linestrings, cursor,
and remaining parameter count. -/
structure EagerState where
  coords : List (ℚ × ℚ)
  polys : List (List (ℚ × ℚ) × List (List (ℚ × ℚ)))
  lines : List (List (ℚ × ℚ))
  cur : ℤ × ℤ
  pcount : ℕ
deriving DecidableEq, Repr

/-- Initial state of the eager loop. -/
def eagerInit : EagerState := ⟨[], [], [], (0, 0), 0⟩

/-- One stream cell of the eager parse_geometry loop (lib.rs). With
pcount = 0 the cell is a command: MoveTo arms the parameter counter and,
for linestring geometry with a non-empty accumulator, flushes it as a
finished linestring; LineTo arms the counter; ClosePath requires a first
coordinate (else geometry error), appends it to close the ring, and if
the shoelace area of the ring is strictly positive and finished rings
are pending, flushes them as a polygon before starting a new ring list;
other ids are ignored. With pcount > 0 the cell is a zigzag parameter
updating the cursor with clippedAdd32; a full pair appends the cursor to
the accumulator. -/
def eager_step (g : GeomType) (s : EagerState) (v : ℕ) :
    Except Err EagerState :=
  if s.pcount = 0 then
    let cid := v % 8
    if cid = 1 then
      if g = .linestring ∧ ¬ s.coords.isEmpty then
        .ok { s with pcount := (v / 8) * 2, lines := s.lines ++ [s.coords], coords := [] }
      else
        .ok { s with pcount := (v / 8) * 2 }
    else if cid = 2 then
      .ok { s with pcount := (v / 8) * 2 }
    else if cid = 7 then
      match s.coords.head? with
      | none => .error .geometry
      | some c =>
        let ring := s.coords ++ [c]
        let area := shoelace_formula ring
        if 0 < area ∧ ¬ s.lines.isEmpty then
          .ok { s with polys := s.polys ++ [(s.lines.headD [], s.lines.tail)],
                       lines := [ring], coords := [] }
        else
          .ok { s with lines := s.lines ++ [ring], coords := [] }
    else
      .ok s
  else
    let d := zigzag v
    if s.pcount % 2 = 0 then
      .ok { s with cur := (clippedAdd32 s.cur.1 d, s.cur.2), pcount := s.pcount - 1 }
    else
      let y := clippedAdd32 s.cur.2 d
      .ok { s with cur := (s.cur.1, y), pcount := s.pcount - 1,
                   coords := s.coords ++ [((s.cur.1 : ℚ), (y : ℚ))] }

/-- The eager loop over the whole stream. -/
def eagerRun (g : GeomType) : List ℕ → EagerState → Except Err EagerState
  | [], s => .ok s
  | v :: rest, s =>
    match eager_step g s v with
    | .error e => .error e
    | .ok s' => eagerRun g rest s'

/-- Output geometry of the eager decoder (the geo-types Geometry value
built by lib.rs parse_geometry). -/
inductive GeoGeometry where
  | lineString (coords : List (ℚ × ℚ))
  | multiLineString (lines : List (List (ℚ × ℚ)))
  | multiPoint (pts : List (ℚ × ℚ))
  | polygon (exterior : List (ℚ × ℚ)) (holes : List (List (ℚ × ℚ)))
  | multiPolygon (polys : List (List (ℚ × ℚ) × List (List (ℚ × ℚ))))
deriving DecidableEq, Repr

/-- Eager parse_geometry (lib.rs): Unknown fails immediately; otherwise
the stream is folded through eager_step and the final state assembled
per geometry kind, a polygon with no finished ring and no finished
polygon being a geometry error. -/
def parse_geometry (geometry_data : List ℕ) (g : GeomType) :
    Except Err GeoGeometry :=
  if g = .unknown then .error .geometry
  else
    match eagerRun g geometry_data eagerInit with
    | .error e => .error e
    | .ok s =>
      match g with
      | .linestring =>
        if ¬ s.lines.isEmpty then .ok (.multiLineString (s.lines ++ [s.coords]))
        else .ok (.lineString s.coords)
      | .point => .ok (.multiPoint s.coords)
      | .polygon =>
        if ¬ s.lines.isEmpty then
          .ok (.multiPolygon (s.polys ++ [(s.lines.headD [], s.lines.tail)]))
        else
          match s.polys.head? with
          | some p => .ok (.polygon p.1 p.2)
          | none => .error .geometry
      | .unknown => .error .geometry

/-- Decoded property value (feature.rs Value as used by lib.rs). -/
inductive Value where
  | str (s : String)
  | float (v : ℚ)
  | double (v : ℚ)
  | int (v : ℤ)
  | uint (v : ℕ)
  | sint (v : ℤ)
  | bool (b : Bool)
  | null
deriving DecidableEq, Repr

/-- Raw dictionary value entry of the tile message (vector_tile Value):
a record of optional typed fields. -/
structure TileValue where
  string_value : Option String := none
  float_value : Option ℚ := none
  double_value : Option ℚ := none
  int_value : Option ℤ := none
  uint_value : Option ℕ := none
  sint_value : Option ℤ := none
  bool_value : Option Bool := none
deriving DecidableEq, Repr

instance : Inhabited TileValue := ⟨{}⟩

/-- map_value (lib.rs): the first set field wins, in the source order
string, float, double, int, uint, sint, bool; otherwise Null. -/
def map_value (v : TileValue) : Value :=
  match v.string_value with
  | some s => .str s
  | none =>
  match v.float_value with
  | some f => .float f
  | none =>
  match v.double_value with
  | some d => .double d
  | none =>
  match v.int_value with
  | some i => .int i
  | none =>
  match v.uint_value with
  | some u => .uint u
  | none =>
  match v.sint_value with
  | some s => .sint s
  | none =>
  match v.bool_value with
  | some b => .bool b
  | none => .null

/-- parse_tags (lib.rs): the tag list is traversed two cells at a time;
a trailing single cell (odd length) or an index at or beyond its
dictionary length is a tags error for the whole call; otherwise each
pair resolves to an insertion of keys[k] mapped to
map_value(values[v]). The result is the chronological insertion list;
the HashMap of the source is this list observed through getTag. -/
def parse_tags (tags : List ℕ) (keys : List String) (values : List TileValue) :
    Except Err (List (String × Value)) :=
  match tags with
  | [] => .ok []
  | [_] => .error .tags
  | k :: v :: rest =>
    if keys.length ≤ k ∨ values.length ≤ v then .error .tags
    else
      match parse_tags rest keys values with
      | .error e => .error e
      | .ok m => .ok ((keys.getD k "", map_value (values.getD v default)) :: m)

/-- Lookup in the insertion list with the HashMap overwrite semantics:
the value of the last insertion under the key. -/
def getTag (m : List (String × Value)) (k : String) : Option Value :=
  (m.reverse.find? (fun p => p.1 == k)).map (·.2)

/-- The resolved pair list an even, in-bounds tag list denotes: the
mapping keys[k] to map_value(values[v]) for every consecutive pair, in
order; pairs past a malformed point are not represented (the function is
only related to parse_tags on its success path). -/
def resolved_pairs : List ℕ → List String → List TileValue → List (String × Value)
  | k :: v :: rest, keys, values =>
    (keys.getD k "", map_value (values.getD v default)) :: resolved_pairs rest keys values
  | _, _, _ => []

/-- Raw feature of the decoded tile message (vector_tile Feature). -/
structure RawFeature where
  id : Option ℕ := none
  tags : List ℕ := []
  type : Option ℕ := none
  geometry : List ℕ := []
deriving DecidableEq, Repr

instance : Inhabited RawFeature := ⟨{}⟩

/-- Raw layer of the decoded tile message (vector_tile Layer). -/
structure RawLayer where
  version : ℕ := 1
  name : String := ""
  features : List RawFeature := []
  keys : List String := []
  values : List TileValue := []
  extent : Option ℕ := none
deriving DecidableEq, Repr

/-- Decoded tile message. -/
structure Tile where
  layers : List RawLayer := []
deriving DecidableEq, Repr

/-- Eagerly assembled feature (feature::Feature as built by
Reader::get_features): geometry, optional id, and properties. -/
structure EagerFeature where
  geometry : GeoGeometry
  id : Option ℕ
  properties : List (String × Value)
deriving DecidableEq, Repr

/-- The per-feature loop of Reader::get_features: a feature with no type
field is passed over; a type that does not convert is a decode error;
otherwise geometry then tags are parsed, either error aborting the whole
call. -/
def featuresGo (keys : List String) (values : List TileValue) :
    List RawFeature → Except Err (List EagerFeature)
  | [] => .ok []
  | f :: fs =>
    match f.type with
    | none => featuresGo keys values fs
    | some t =>
      match geomTypeTryFrom t with
      | none => .error .decode
      | some g =>
        match parse_geometry f.geometry g with
        | .error e => .error e
        | .ok geom =>
          match parse_tags f.tags keys values with
          | .error e => .error e
          | .ok props =>
            match featuresGo keys values fs with
            | .error e => .error e
            | .ok rest => .ok (⟨geom, f.id, props⟩ :: rest)

/-- Reader::get_features (lib.rs): an out-of-range layer index yields an
empty feature list, otherwise the per-feature loop over the layer. -/
def get_features (tile : Tile) (layer_index : ℕ) :
    Except Err (List EagerFeature) :=
  match tile.layers[layer_index]? with
  | none => .ok []
  | some layer => featuresGo layer.keys layer.values layer.features

/-- Lazily assembled feature (feature.rs Feature): the geometry iterator
is captured unparsed as kind plus command stream; properties are the
resolved tags. -/
structure LazyFeature where
  geomType : GeomType
  geometry : List ℕ
  properties : List (String × Value)
deriving DecidableEq, Repr

/-- Feature::from_raw (feature.rs): a feature with no type field is an
io parse error; an unconvertible type is a decode error; otherwise the
tags are resolved (a tags error aborting) and the feature is built with
its geometry left for later iteration. -/
def from_raw (layer : RawLayer) (f : RawFeature) : Except Err LazyFeature :=
  match f.type with
  | none => .error .ioParse
  | some t =>
    match geomTypeTryFrom t with
    | none => .error .decode
    | some g =>
      match parse_tags f.tags layer.keys layer.values with
      | .error e => .error e
      | .ok props => .ok ⟨g, f.geometry, props⟩

/-- FeatureIterator::next (feature_iter.rs): when the index is past the
feature list the iterator is exhausted and the index stays; otherwise
the index advances and the call returns the parsed feature, or nothing
when from_raw fails. -/
def feature_iter_next (layer : RawLayer) (idx : ℕ) :
    Option LazyFeature × ℕ :=
  match layer.features[idx]? with
  | none => (none, idx)
  | some f => ((from_raw layer f).toOption, idx + 1)

/-- Fueled drain of the feature iterator under the standard Iterator
protocol: advance until the first call that returns no feature, as a
for loop or collect does. -/
def collectGo (layer : RawLayer) : ℕ → ℕ → List LazyFeature
  | 0, _ => []
  | fuel + 1, idx =>
    match feature_iter_next layer idx with
    | (some f, idx') => f :: collectGo layer fuel idx'
    | (none, _) => []

/-- The feature list a standard consumer obtains from the lazy iterator
of a layer. -/
def collect_features (layer : RawLayer) : List LazyFeature :=
  collectGo layer (layer.features.length + 1) 0

/-- The parameter cells consumed as x components: within one parameter
run the remaining count is even exactly on the first cell of each pair,
so the x cells are those at even offsets. -/
def xCells : List ℕ → List ℕ
  | [] => []
  | [x] => [x]
  | x :: _ :: rest => x :: xCells rest

/-- The parameter cells consumed as y components. -/
def yCells : List ℕ → List ℕ
  | [] => []
  | [_] => []
  | _ :: y :: rest => y :: yCells rest

/-- Zigzag-decoded x deltas of a parameter run. -/
def xDeltas (params : List ℕ) : List ℤ := (xCells params).map zigzag

/-- Zigzag-decoded y deltas of a parameter run. -/
def yDeltas (params : List ℕ) : List ℤ := (yCells params).map zigzag

/-- Whether an integer lies in the signed 32-bit range. -/
def inRange32 (a : ℤ) : Bool :=
  decide (int32Min ≤ a) && decide (a ≤ int32Max)

/-- Whether every cumulative sum of the deltas, started from a, stays in
the signed 32-bit range. -/
def inRangeChk (a : ℤ) : List ℤ → Bool
  | [] => true
  | d :: ds => inRange32 (a + d) && inRangeChk (a + d) ds

/-- A feature with no geometry-type field (counterexample input). -/
def c1Feature : RawFeature := { type := none, geometry := [15] }

/-- A layer holding only a feature with no type field. -/
def c1Layer : RawLayer := { version := 2, name := "l", features := [c1Feature] }

/-- A tile holding only that layer. -/
def c1Tile : Tile := ⟨[c1Layer]⟩

/-- A decodable point feature. -/
def c2f1 : RawFeature := { type := some 1, geometry := [9, 4, 4] }

/-- A feature with no type field, on which from_raw fails. -/
def c2fBad : RawFeature := { type := none }

/-- A second decodable point feature, positioned after the broken one. -/
def c2f3 : RawFeature := { type := some 1, geometry := [9, 2, 2] }

/-- A layer whose middle feature fails to decode. -/
def c2Layer : RawLayer := { version := 2, name := "t", features := [c2f1, c2fBad, c2f3] }

theorem satAdd32_eq_add (a b : ℤ) (h1 : int32Min ≤ a + b) (h2 : a + b ≤ int32Max) :
    satAdd32 a b = a + b := by
  simp only [satAdd32, max_def, min_def]
  split <;> split <;> omega

theorem satAdd32_pos_overflow (a b : ℤ) (h : int32Max < a + b) :
    satAdd32 a b = int32Max := by
  simp only [satAdd32, max_def, min_def, int32Max, int32Min] at *
  split <;> split <;> omega

theorem satAdd32_neg_overflow (a b : ℤ) (h : a + b < int32Min) :
    satAdd32 a b = int32Min := by
  simp only [satAdd32, max_def, min_def, int32Max, int32Min] at *
  split <;> split <;> omega

theorem clippedAdd32_overflow (a b : ℤ) (h : a + b < int32Min ∨ int32Max < a + b) :
    clippedAdd32 a b = int32Max := by
  simp only [clippedAdd32, if_pos h]

/-- C7: in both the eager and the streaming decoder, a ClosePath command
cell reached in command position while the coordinate accumulator is
empty makes the decoding step of that feature fail with the geometry
error, for every geometry kind and every surrounding state. -/
theorem C7_closepath_empty (g : GeomType) (v : ℕ) (cur : ℤ × ℤ) (a : ℚ)
    (pending : List Storage) (cid : ℕ)
    (polys : List (List (ℚ × ℚ) × List (List (ℚ × ℚ))))
    (lines : List (List (ℚ × ℚ))) (cur2 : ℤ × ℤ)
    (hv : v % 8 = 7) :
    parse_step g ⟨cur, ⟨[], a⟩, pending, 0, cid⟩ v = .error .geometry
    ∧ eager_step g ⟨[], polys, lines, cur2, 0⟩ v = .error .geometry := by
  constructor
  · simp [parse_step, hv]
  · simp [eager_step, hv]

/-- Closed instance of C7: the first ClosePath cell of a stream fails
both decoders at once. -/
theorem C7_witness :
    parse_step .polygon ⟨(0, 0), ⟨[], 0⟩, [], 0, 0⟩ 15 = .error .geometry
    ∧ eager_step .polygon ⟨[], [], [], (0, 0), 0⟩ 15 = .error .geometry :=
  C7_closepath_empty .polygon 15 (0, 0) 0 [] 0 [] [] (0, 0) (by decide)

/-- C9: Reader::get_features called with a layer index at or past the
number of layers answers Ok with the empty feature list, exactly like an
existing layer that contributes no features. -/
theorem C9_out_of_range :
    (∀ (tile : Tile) (idx : ℕ), tile.layers.length ≤ idx →
      get_features tile idx = .ok [])
    ∧ (∀ (keys : List String) (values : List TileValue),
        featuresGo keys values [] = .ok []) := by
  constructor
  · intro tile idx h
    unfold get_features
    rw [List.getElem?_eq_none h]
  · intro keys values
    rfl

/-- Closed instance of C9 at a concrete empty tile and index. -/
theorem C9_witness : get_features ⟨[]⟩ 3 = .ok [] :=
  C9_out_of_range.1 ⟨[]⟩ 3 (by decide)

theorem eagerRun_no_close (data : List ℕ) :
    ∀ s : EagerState, (∀ v ∈ data, v % 8 ≠ 7) → s.lines = [] → s.polys = [] →
    ∃ s', eagerRun .polygon data s = .ok s' ∧ s'.lines = [] ∧ s'.polys = [] := by
  induction data with
  | nil => intro s _ hl hp; exact ⟨s, rfl, hl, hp⟩
  | cons v rest ih =>
    intro s hv hl hp
    have hv7 : v % 8 ≠ 7 := hv v (by simp)
    have hrest : ∀ w ∈ rest, w % 8 ≠ 7 := fun w hw => hv w (by simp [hw])
    by_cases hpc : s.pcount = 0
    · by_cases h1 : v % 8 = 1
      · have := ih { s with pcount := v / 8 * 2 } hrest hl hp
        simpa [eagerRun, eager_step, hpc, h1] using this
      · by_cases h2 : v % 8 = 2
        · have := ih { s with pcount := v / 8 * 2 } hrest hl hp
          simpa [eagerRun, eager_step, hpc, h1, h2] using this
        · have := ih s hrest hl hp
          simpa [eagerRun, eager_step, hpc, h1, h2, hv7] using this
    · by_cases hx : s.pcount % 2 = 0
      · have := ih { s with cur := (clippedAdd32 s.cur.1 (zigzag v), s.cur.2),
                            pcount := s.pcount - 1 } hrest hl hp
        simpa [eagerRun, eager_step, hpc, hx] using this
      · have := ih { s with cur := (s.cur.1, clippedAdd32 s.cur.2 (zigzag v)),
                            pcount := s.pcount - 1,
                            coords := s.coords ++ [((s.cur.1 : ℚ), ((clippedAdd32 s.cur.2 (zigzag v) : ℤ) : ℚ))] }
                  hrest hl hp
        simpa [eagerRun, eager_step, hpc, hx] using this

/-- C10: for a Polygon feature whose command stream holds no ClosePath
cell, the eager parse_geometry used by Reader::get_features answers the
geometry error; in particular it does so on the empty stream. -/
theorem C10_polygon_no_ring (data : List ℕ) (h : ∀ v ∈ data, v % 8 ≠ 7) :
    parse_geometry data .polygon = .error .geometry := by
  obtain ⟨s', hrun, hl, hp⟩ := eagerRun_no_close data eagerInit h rfl rfl
  unfold parse_geometry
  rw [if_neg (by decide)]
  rw [hrun]
  simp [hl, hp]

/-- Closed instance of C10: a Polygon stream holding a single MoveTo and
no ClosePath is a geometry error. -/
theorem C10_witness : parse_geometry [9, 4, 4] .polygon = .error .geometry :=
  C10_polygon_no_ring [9, 4, 4] (by decide)

/-- C1 fails on the code: a feature whose type field is absent does not
make the eager Reader::get_features fail; on the concrete tile whose
only feature has no type the call answers Ok with the empty list, the
feature being skipped silently. -/
theorem C1_counterexample :
    get_features c1Tile 0 = .ok [] ∧ c1Feature.type = none := by
  constructor
  · rfl
  · rfl

/-- C1 amended: in the eager path a feature with no geometry-type field
is silently passed over, so the per-feature loop computes exactly what
it computes on the sublist of features whose type field is present. -/
theorem C1_amended (keys : List String) (values : List TileValue)
    (fs : List RawFeature) :
    featuresGo keys values (fs.filter (fun f => f.type.isSome)) =
      featuresGo keys values fs := by
  induction fs with
  | nil => rfl
  | cons f rest ih =>
    cases ht : f.type with
    | none => simpa [featuresGo, List.filter, ht] using ih
    | some t =>
      simp only [List.filter, ht, Option.isSome_some]
      simp only [featuresGo, ht, ih]

theorem open_shoelace_from_some : ∀ (rest : List (ℚ × ℚ)) (p : ℚ × ℚ),
    open_shoelace_from (some p) rest = open_shoelace (p :: rest)
  | [], p => by simp [open_shoelace_from, open_shoelace]
  | q :: rs, p => by
    simp [open_shoelace_from, open_shoelace, open_shoelace_from_some rs q]

theorem open_shoelace_from_none (pts : List (ℚ × ℚ)) :
    open_shoelace_from none pts = open_shoelace pts := by
  cases pts with
  | nil => rfl
  | cons p rest => simp [open_shoelace_from, open_shoelace_from_some]

theorem pushList_cons (s : Storage) (p : ℚ × ℚ) (rest : List (ℚ × ℚ)) :
    s.pushList (p :: rest) = (s.push p.1 p.2).pushList rest := rfl

theorem push_coords (s : Storage) (x y : ℚ) :
    (s.push x y).coords = s.coords ++ [(x, y)] := by
  unfold Storage.push
  cases h : s.coords.getLast? with
  | none => rfl
  | some v => obtain ⟨px, py⟩ := v; rfl

theorem push_getLast (s : Storage) (x y : ℚ) :
    (s.push x y).coords.getLast? = some (x, y) := by
  rw [push_coords]; simp

theorem push_area_none (s : Storage) (x y : ℚ) (h : s.coords.getLast? = none) :
    (s.push x y).accumulated_area = s.accumulated_area := by
  unfold Storage.push
  rw [h]

theorem push_area_some (s : Storage) (x y : ℚ) (v : ℚ × ℚ)
    (h : s.coords.getLast? = some v) :
    (s.push x y).accumulated_area = s.accumulated_area + v.1 * y - x * v.2 := by
  obtain ⟨px, py⟩ := v
  unfold Storage.push
  rw [h]

theorem pushList_coords : ∀ (pts : List (ℚ × ℚ)) (s : Storage),
    (s.pushList pts).coords = s.coords ++ pts
  | [], s => by simp [Storage.pushList]
  | p :: rest, s => by
    rw [pushList_cons, pushList_coords rest, push_coords]
    simp

theorem pushList_area : ∀ (pts : List (ℚ × ℚ)) (s : Storage),
    (s.pushList pts).accumulated_area =
      s.accumulated_area + open_shoelace_from s.coords.getLast? pts
  | [], s => by simp [Storage.pushList, open_shoelace_from]
  | p :: rest, s => by
    rw [pushList_cons, pushList_area rest, push_getLast]
    cases h : s.coords.getLast? with
    | none =>
      rw [push_area_none s p.1 p.2 h]
      simp [open_shoelace_from]
    | some v =>
      rw [push_area_some s p.1 p.2 v h]
      simp [open_shoelace_from]
      ring

theorem shoelaceGo_eq : ∀ (pts : List (ℚ × ℚ)) (v : ℚ × ℚ),
    shoelaceGo v pts = open_shoelace_from (some v) pts
      + ((pts.getLastD v).1 * (pts.getLastD v).2 - v.1 * v.2)
  | [], v => by simp [shoelaceGo, open_shoelace_from, List.getLastD]
  | p :: rest, v => by
    rw [shoelaceGo, shoelaceGo_eq rest p, List.getLastD_cons]
    simp [open_shoelace_from]
    ring

theorem getLast?_cons_eq_getLastD (p : ℚ × ℚ) (rest : List (ℚ × ℚ)) :
    (p :: rest).getLast? = some ((p :: rest).getLastD p) := by
  rw [List.getLastD_eq_getLast?]
  cases h : (p :: rest).getLast? with
  | none => simp at h
  | some a => rfl

theorem shoelace_formula_eq (p : ℚ × ℚ) (rest : List (ℚ × ℚ)) :
    shoelace_formula (p :: rest) =
      (((p :: rest).getLastD p).1 * p.2 - p.1 * ((p :: rest).getLastD p).2
        + open_shoelace (p :: rest)) / 2 := by
  have h1 := getLast?_cons_eq_getLastD p rest
  unfold shoelace_formula
  rw [h1]
  show shoelaceGo ((p :: rest).getLastD p) (p :: rest) * (1 / 2) = _
  rw [shoelaceGo_eq]
  have h2 : (p :: rest).getLastD ((p :: rest).getLastD p) = (p :: rest).getLastD p := by
    rw [List.getLastD_eq_getLast? ((p :: rest).getLastD p) (p :: rest), h1]
    rfl
  rw [h2]
  have h3 : open_shoelace_from (some ((p :: rest).getLastD p)) (p :: rest)
      = (((p :: rest).getLastD p).1 * p.2 - p.1 * ((p :: rest).getLastD p).2)
        + open_shoelace_from (some p) rest := rfl
  rw [h3, open_shoelace_from_some]
  ring

theorem get_acc_short (st : Storage) (h : st.coords.length < 2) :
    st.get_accumulated_area = 0 := by
  unfold Storage.get_accumulated_area
  rw [if_neg (by omega)]

theorem get_acc_of (st : Storage) (p : ℚ × ℚ) (rest : List (ℚ × ℚ))
    (hc : st.coords = p :: rest) (h2 : 2 ≤ (p :: rest).length) :
    st.get_accumulated_area =
      (st.accumulated_area + ((p :: rest).getLastD p).1 * p.2
        - p.1 * ((p :: rest).getLastD p).2) / 2 := by
  have h1 := getLast?_cons_eq_getLastD p rest
  unfold Storage.get_accumulated_area
  rw [hc, if_pos h2]
  rw [show (p :: rest).head? = some p from rfl, h1]

/-- C4: after a clear and any sequence of pushes, the accumulator of the
coordinate storage holds exactly the open shoelace sum of the stored
points, get_accumulated_area adds the closing-edge cross term and halves
when at least two points are stored (and answers zero for fewer), and
that value equals the shoelace signed-area formula of the source applied
to the stored ring with its implicit closing edge. -/
theorem C4_storage_area (s : Storage) (pts : List (ℚ × ℚ)) (h : pts ≠ []) :
    ((s.clear).pushList pts).accumulated_area = open_shoelace pts
    ∧ ((s.clear).pushList pts).get_accumulated_area = shoelace_formula pts
    ∧ (2 ≤ pts.length →
        ((s.clear).pushList pts).get_accumulated_area =
          (open_shoelace pts + (pts.getLastD (0, 0)).1 * (pts.headD (0, 0)).2
            - (pts.headD (0, 0)).1 * (pts.getLastD (0, 0)).2) / 2)
    ∧ (pts.length < 2 → ((s.clear).pushList pts).get_accumulated_area = 0) := by
  obtain ⟨p, rest, rfl⟩ := List.exists_cons_of_ne_nil h
  have hcoords : ((s.clear).pushList (p :: rest)).coords = p :: rest := by
    rw [pushList_coords]; rfl
  have harea : ((s.clear).pushList (p :: rest)).accumulated_area
      = open_shoelace (p :: rest) := by
    rw [pushList_area]
    show (0 : ℚ) + open_shoelace_from ([] : List (ℚ × ℚ)).getLast? (p :: rest) = _
    rw [show ([] : List (ℚ × ℚ)).getLast? = none from rfl, open_shoelace_from_none]
    ring
  refine ⟨harea, ?_, ?_, ?_⟩
  · cases rest with
    | nil =>
      rw [get_acc_short _ (by rw [hcoords]; simp)]
      rw [shoelace_formula_eq]
      show (0 : ℚ) = (p.1 * p.2 - p.1 * p.2 + open_shoelace [p]) / 2
      rw [show open_shoelace [p] = 0 from rfl]
      ring
    | cons q rs =>
      rw [get_acc_of _ p (q :: rs) hcoords (by simp), harea, shoelace_formula_eq]
      ring
  · intro h2
    cases rest with
    | nil => simp at h2
    | cons q rs =>
      have hD : (p :: q :: rs).getLastD (0, 0) = (p :: q :: rs).getLastD p := by
        rw [List.getLastD_eq_getLast? ((0 : ℚ), (0 : ℚ)) (p :: q :: rs),
            List.getLastD_eq_getLast? p (p :: q :: rs),
            getLast?_cons_eq_getLastD p (q :: rs)]
        rfl
      rw [get_acc_of _ p (q :: rs) hcoords (by simp), harea, hD]
      rw [show (p :: q :: rs).headD ((0 : ℚ), (0 : ℚ)) = p from rfl]
  · intro hlt
    cases rest with
    | nil => exact get_acc_short _ (by rw [hcoords]; simp)
    | cons q rs => simp at hlt; omega

/-- Closed instance of C4 on the positive triangle ring of the design
scenarios. -/
theorem C4_witness :
    (Storage.empty.clear.pushList [(0, 0), (10, 0), (10, 10)]).get_accumulated_area
      = shoelace_formula [(0, 0), (10, 0), (10, 10)]
    ∧ shoelace_formula [((0 : ℚ), (0 : ℚ)), (10, 0), (10, 10)] = 50 :=
  ⟨(C4_storage_area Storage.empty [(0, 0), (10, 0), (10, 10)] (by simp)).2.1,
   by norm_num [shoelace_formula, shoelaceGo]⟩

theorem parse_tags_error_unique (keys : List String) (values : List TileValue) :
    ∀ (tags : List ℕ) (e : Err),
    parse_tags tags keys values = .error e → e = .tags
  | [], e => by simp [parse_tags]
  | [k], e => by simp [parse_tags]; intro h; exact h.symm
  | k :: v :: rest, e => by
    intro h
    unfold parse_tags at h
    by_cases hb : keys.length ≤ k ∨ values.length ≤ v
    · rw [if_pos hb] at h
      exact (Except.error.inj h).symm
    · rw [if_neg hb] at h
      cases hr : parse_tags rest keys values with
      | error e2 =>
        rw [hr] at h
        have he2 := parse_tags_error_unique keys values rest e2 hr
        rw [← Except.error.inj h, he2]
      | ok m => rw [hr] at h; simp at h

theorem parse_tags_ok (keys : List String) (values : List TileValue) :
    ∀ (tags : List ℕ) (m : List (String × Value)),
    parse_tags tags keys values = .ok m → m = resolved_pairs tags keys values
  | [], m => by simp [parse_tags, resolved_pairs]
  | [k], m => by simp [parse_tags]
  | k :: v :: rest, m => by
    intro h
    unfold parse_tags at h
    by_cases hb : keys.length ≤ k ∨ values.length ≤ v
    · rw [if_pos hb] at h; simp at h
    · rw [if_neg hb] at h
      cases hr : parse_tags rest keys values with
      | error e2 => rw [hr] at h; simp at h
      | ok m2 =>
        rw [hr] at h
        have := parse_tags_ok keys values rest m2 hr
        rw [← Except.ok.inj h, this]
        rfl

theorem parse_tags_error_iff (keys : List String) (values : List TileValue) :
    ∀ tags : List ℕ,
    (∃ e, parse_tags tags keys values = .error e) ↔
      (tags.length % 2 = 1 ∨ ∃ i, 2 * i + 1 < tags.length ∧
        (keys.length ≤ tags.getD (2 * i) 0 ∨ values.length ≤ tags.getD (2 * i + 1) 0))
  | [] => by
    constructor
    · rintro ⟨e, he⟩; simp [parse_tags] at he
    · rintro (h | ⟨i, hi, _⟩)
      · simp at h
      · simp at hi
  | [k] => by
    constructor
    · intro _; exact Or.inl rfl
    · intro _; exact ⟨.tags, rfl⟩
  | k :: v :: rest => by
    have hshift : (∃ i, 2 * i + 1 < (k :: v :: rest).length ∧
        (keys.length ≤ (k :: v :: rest).getD (2 * i) 0
          ∨ values.length ≤ (k :: v :: rest).getD (2 * i + 1) 0))
        ↔ ((keys.length ≤ k ∨ values.length ≤ v)
          ∨ ∃ i, 2 * i + 1 < rest.length ∧
            (keys.length ≤ rest.getD (2 * i) 0
              ∨ values.length ≤ rest.getD (2 * i + 1) 0)) := by
      constructor
      · rintro ⟨i, hlen, hor⟩
        cases i with
        | zero => exact Or.inl (by simpa using hor)
        | succ j =>
          refine Or.inr ⟨j, ?_, ?_⟩
          · simp at hlen; omega
          · have e1 : (k :: v :: rest).getD (2 * (j + 1)) 0 = rest.getD (2 * j) 0 := by
              rw [show 2 * (j + 1) = 2 * j + 1 + 1 from by omega]
              rfl
            have e2 : (k :: v :: rest).getD (2 * (j + 1) + 1) 0
                = rest.getD (2 * j + 1) 0 := by
              rw [show 2 * (j + 1) + 1 = 2 * j + 1 + 1 + 1 from by omega]
              rfl
            rwa [e1, e2] at hor
      · rintro (h0 | ⟨j, hlen, hor⟩)
        · exact ⟨0, by simp, by simpa using h0⟩
        · refine ⟨j + 1, by simp; omega, ?_⟩
          have e1 : (k :: v :: rest).getD (2 * (j + 1)) 0 = rest.getD (2 * j) 0 := by
            rw [show 2 * (j + 1) = 2 * j + 1 + 1 from by omega]
            rfl
          have e2 : (k :: v :: rest).getD (2 * (j + 1) + 1) 0
              = rest.getD (2 * j + 1) 0 := by
            rw [show 2 * (j + 1) + 1 = 2 * j + 1 + 1 + 1 from by omega]
            rfl
          rw [e1, e2]
          exact hor
    have hmod : (k :: v :: rest).length % 2 = rest.length % 2 := by
      simp; omega
    by_cases hb : keys.length ≤ k ∨ values.length ≤ v
    · constructor
      · intro _
        exact Or.inr (hshift.mpr (Or.inl hb))
      · intro _
        exact ⟨.tags, by unfold parse_tags; rw [if_pos hb]⟩
    · have ih := parse_tags_error_iff keys values rest
      constructor
      · rintro ⟨e, he⟩
        unfold parse_tags at he
        rw [if_neg hb] at he
        cases hr : parse_tags rest keys values with
        | error e2 =>
          rcases ih.mp ⟨e2, hr⟩ with h | h
          · exact Or.inl (by rw [hmod]; exact h)
          · exact Or.inr (hshift.mpr (Or.inr h))
        | ok m => rw [hr] at he; simp at he
      · rintro (h | h)
        · rw [hmod] at h
          rcases ih.mpr (Or.inl h) with ⟨e, he⟩
          refine ⟨e, ?_⟩
          unfold parse_tags
          rw [if_neg hb, he]
        · rcases hshift.mp h with h0 | h1
          · exact absurd h0 hb
          · rcases ih.mpr (Or.inr h1) with ⟨e, he⟩
            refine ⟨e, ?_⟩
            unfold parse_tags
            rw [if_neg hb, he]

theorem getTag_last_wins (pre post : List (String × Value)) (k : String) (v : Value)
    (h : ∀ p ∈ post, p.1 ≠ k) :
    getTag (pre ++ (k, v) :: post) k = some v := by
  unfold getTag
  have hrev : (pre ++ (k, v) :: post).reverse
      = post.reverse ++ ([(k, v)] ++ pre.reverse) := by
    simp
  rw [hrev, List.find?_append]
  have hnone : List.find? (fun p => p.1 == k) post.reverse = none := by
    rw [List.find?_eq_none]
    intro p hp
    simp only [beq_iff_eq]
    exact fun hc => h p (by simpa using hp) (by simpa using hc)
  rw [hnone]
  simp

/-- C8: tag resolution fails, always with the tags error, exactly when
the tag list has odd length or some key index or value index of a
consecutive pair is out of bounds of its dictionary; on success it
produces the insertion list mapping keys[k] to the decoded values[v] for
every consecutive pair in order, a later insertion under the same key
overwriting an earlier one in the resulting lookup. -/
theorem C8_parse_tags (tags : List ℕ) (keys : List String) (values : List TileValue) :
    ((∃ e, parse_tags tags keys values = .error e) ↔
      (tags.length % 2 = 1 ∨ ∃ i, 2 * i + 1 < tags.length ∧
        (keys.length ≤ tags.getD (2 * i) 0 ∨ values.length ≤ tags.getD (2 * i + 1) 0)))
    ∧ (∀ e, parse_tags tags keys values = .error e → e = .tags)
    ∧ (∀ m, parse_tags tags keys values = .ok m → m = resolved_pairs tags keys values)
    ∧ (∀ (pre post : List (String × Value)) (k : String) (v : Value),
        (∀ p ∈ post, p.1 ≠ k) → getTag (pre ++ (k, v) :: post) k = some v) :=
  ⟨parse_tags_error_iff keys values tags,
   fun e => parse_tags_error_unique keys values tags e,
   fun m => parse_tags_ok keys values tags m,
   getTag_last_wins⟩

/-- Closed instance of C8: an odd tag list fails, and the lookup of a
twice-inserted key answers the later value. -/
theorem C8_witness :
    (∃ e, parse_tags [0] [] [] = .error e)
    ∧ getTag ([("k", Value.str "a")] ++ ("k", Value.str "b") :: []) "k"
        = some (Value.str "b") :=
  ⟨(C8_parse_tags [0] [] []).1.mpr (Or.inl rfl),
   (C8_parse_tags [] [] []).2.2.2 [("k", Value.str "a")] [] "k" (Value.str "b")
     (by simp)⟩

theorem xDeltas_cons (x y : ℕ) (rest : List ℕ) :
    xDeltas (x :: y :: rest) = zigzag x :: xDeltas rest := by
  simp [xDeltas, xCells]

theorem yDeltas_cons (x y : ℕ) (rest : List ℕ) :
    yDeltas (x :: y :: rest) = zigzag y :: yDeltas rest := by
  simp [yDeltas, yCells]

theorem foldl_satAdd_inRange : ∀ (ds : List ℤ) (a : ℤ),
    inRangeChk a ds = true → ds.foldl satAdd32 a = a + ds.sum
  | [], a, _ => by simp
  | d :: ds, a, h => by
    simp only [inRangeChk, inRange32, Bool.and_eq_true, decide_eq_true_eq] at h
    obtain ⟨⟨h1, h2⟩, h3⟩ := h
    rw [List.foldl_cons, satAdd32_eq_add a d h1 h2, foldl_satAdd_inRange ds (a + d) h3,
        List.sum_cons]
    ring

theorem foldl_satAdd_nonneg : ∀ (ds : List ℤ) (a : ℤ),
    (∀ d ∈ ds, 0 ≤ d) → int32Min ≤ a → a ≤ int32Max →
    ds.foldl satAdd32 a = min (a + ds.sum) int32Max
  | [], a, _, _, h2 => by simp; omega
  | d :: ds, a, h, h1, h2 => by
    have hd : 0 ≤ d := h d (by simp)
    have hds : ∀ x ∈ ds, 0 ≤ x := fun x hx => h x (by simp [hx])
    have hsum : 0 ≤ ds.sum := List.sum_nonneg hds
    rw [List.foldl_cons, List.sum_cons]
    by_cases hov : int32Max < a + d
    · rw [satAdd32_pos_overflow a d hov]
      rw [foldl_satAdd_nonneg ds int32Max hds (by simp [int32Max, int32Min]) le_rfl]
      omega
    · rw [satAdd32_eq_add a d (by omega) (by omega)]
      rw [foldl_satAdd_nonneg ds (a + d) hds (by omega) (by omega)]
      omega

theorem runState_cons_ok (g : GeomType) (v : ℕ) (rest : List ℕ) (s : IterState)
    (parts : List Part) (s' : IterState)
    (h : parse_step g s v = .ok (parts, s')) :
    runState g (v :: rest) s =
      match runState g rest s' with
      | .error e => .error e
      | .ok (parts', s'') => .ok (parts ++ parts', s'') := by
  conv_lhs => unfold runState
  rw [h]

theorem runState_cons_error (g : GeomType) (v : ℕ) (rest : List ℕ) (s : IterState)
    (e : Err) (h : parse_step g s v = .error e) :
    runState g (v :: rest) s = .error e := by
  unfold runState
  rw [h]

theorem parse_step_param_x (g : GeomType) (cur : ℤ × ℤ) (st : Storage)
    (pending : List Storage) (cid : ℕ) (n : ℕ) (v : ℕ) (hn : (n + 1) % 2 = 0) :
    parse_step g ⟨cur, st, pending, n + 1, cid⟩ v
      = .ok ([], ⟨(satAdd32 cur.1 (zigzag v), cur.2), st, pending, n, cid⟩) := by
  unfold parse_step
  simp [hn]

theorem parse_step_param_y_point (g : GeomType) (cur : ℤ × ℤ) (st : Storage)
    (pending : List Storage) (cid : ℕ) (n : ℕ) (v : ℕ) (hn : (n + 1) % 2 = 1)
    (hp : g = .point ∧ cid = 1) :
    parse_step g ⟨cur, st, pending, n + 1, cid⟩ v
      = .ok ([Part.point (cur.1 : ℚ) ((satAdd32 cur.2 (zigzag v) : ℤ) : ℚ)],
          ⟨(cur.1, satAdd32 cur.2 (zigzag v)), st, pending, n, cid⟩) := by
  unfold parse_step
  simp [hn, hp]

theorem parse_step_param_y_push (g : GeomType) (cur : ℤ × ℤ) (st : Storage)
    (pending : List Storage) (cid : ℕ) (n : ℕ) (v : ℕ) (hn : (n + 1) % 2 = 1)
    (hp : ¬ (g = .point ∧ cid = 1)) :
    parse_step g ⟨cur, st, pending, n + 1, cid⟩ v
      = .ok ([], ⟨(cur.1, satAdd32 cur.2 (zigzag v)),
          st.push (cur.1 : ℚ) ((satAdd32 cur.2 (zigzag v) : ℤ) : ℚ), pending, n, cid⟩) := by
  unfold parse_step
  simp [hn, hp]

theorem runState_params_cursor (g : GeomType) (cid : ℕ) :
    ∀ (params : List ℕ) (cur : ℤ × ℤ) (st : Storage) (pending : List Storage),
    params.length % 2 = 0 →
    ∃ parts s', runState g params ⟨cur, st, pending, params.length, cid⟩
        = .ok (parts, s')
      ∧ s'.cur = ((xDeltas params).foldl satAdd32 cur.1,
                  (yDeltas params).foldl satAdd32 cur.2)
      ∧ s'.pending = pending
  | [], cur, st, pending, _ =>
    ⟨finish_parsing g st pending, ⟨cur, st, pending, 0, cid⟩, rfl,
      by simp [xDeltas, yDeltas, xCells, yCells], rfl⟩
  | [x], cur, st, pending, h => absurd h (by simp)
  | x :: y :: rest, cur, st, pending, h => by
    have hr : rest.length % 2 = 0 := by
      simp [List.length_cons] at h
      omega
    have hlen : (x :: y :: rest).length = rest.length + 1 + 1 := by simp
    have hm2 : (rest.length + 1 + 1) % 2 = 0 := by omega
    have hm1 : (rest.length + 1) % 2 = 1 := by omega
    have hx := parse_step_param_x g cur st pending cid (rest.length + 1) x hm2
    by_cases hp : g = .point ∧ cid = 1
    · obtain ⟨parts3, s3, hrun3, hcur3, hpend3⟩ :=
        runState_params_cursor g cid rest
          (satAdd32 cur.1 (zigzag x), satAdd32 cur.2 (zigzag y)) st pending hr
      have hy := parse_step_param_y_point g (satAdd32 cur.1 (zigzag x), cur.2)
        st pending cid rest.length y hm1 hp
      refine ⟨[] ++ ([Part.point ((satAdd32 cur.1 (zigzag x) : ℤ) : ℚ)
          ((satAdd32 cur.2 (zigzag y) : ℤ) : ℚ)] ++ parts3), s3, ?_, ?_, hpend3⟩
      · rw [show runState g (x :: y :: rest) ⟨cur, st, pending, (x :: y :: rest).length, cid⟩
            = runState g (x :: y :: rest) ⟨cur, st, pending, rest.length + 1 + 1, cid⟩
            from by rw [hlen]]
        rw [runState_cons_ok g x (y :: rest) _ _ _ hx]
        rw [runState_cons_ok g y rest _ _ _ hy]
        rw [hrun3]
      · simp [hcur3, xDeltas_cons, yDeltas_cons]
    · obtain ⟨parts3, s3, hrun3, hcur3, hpend3⟩ :=
        runState_params_cursor g cid rest
          (satAdd32 cur.1 (zigzag x), satAdd32 cur.2 (zigzag y))
          (st.push ((satAdd32 cur.1 (zigzag x) : ℤ) : ℚ)
            ((satAdd32 cur.2 (zigzag y) : ℤ) : ℚ)) pending hr
      have hy := parse_step_param_y_push g (satAdd32 cur.1 (zigzag x), cur.2)
        st pending cid rest.length y hm1 hp
      refine ⟨[] ++ ([] ++ parts3), s3, ?_, ?_, hpend3⟩
      · rw [show runState g (x :: y :: rest) ⟨cur, st, pending, (x :: y :: rest).length, cid⟩
            = runState g (x :: y :: rest) ⟨cur, st, pending, rest.length + 1 + 1, cid⟩
            from by rw [hlen]]
        rw [runState_cons_ok g x (y :: rest) _ _ _ hx]
        rw [runState_cons_ok g y rest _ _ _ hy]
        rw [hrun3]
      · simp [hcur3, xDeltas_cons, yDeltas_cons]

/-- C6: over any parameter run whose zigzag-decoded x and y deltas have
all cumulative sums inside the signed 32-bit range, the streaming
decoder leaves the cursor exactly at the pair of exact cumulative sums:
the saturating additions never clip, so delta plus zigzag encoding round
trips. -/
theorem C6_cursor_roundtrip (params : List ℕ) (g : GeomType) (cid : ℕ)
    (st : Storage) (pending : List Storage)
    (h2 : params.length % 2 = 0)
    (hx : inRangeChk 0 (xDeltas params) = true)
    (hy : inRangeChk 0 (yDeltas params) = true) :
    ∃ parts s', runState g params ⟨(0, 0), st, pending, params.length, cid⟩
        = .ok (parts, s')
      ∧ s'.cur = ((xDeltas params).sum, (yDeltas params).sum) := by
  obtain ⟨parts, s', hrun, hcur, _⟩ :=
    runState_params_cursor g cid params (0, 0) st pending h2
  refine ⟨parts, s', hrun, ?_⟩
  rw [hcur]
  rw [show ((0, 0) : ℤ × ℤ).1 = 0 from rfl, show ((0, 0) : ℤ × ℤ).2 = 0 from rfl]
  rw [foldl_satAdd_inRange _ 0 hx, foldl_satAdd_inRange _ 0 hy]
  simp

/-- Closed instance of C6 on a two-pair LineTo run. -/
theorem C6_witness :
    ∃ parts s', runState .linestring [4, 4, 4, 4]
        ⟨(0, 0), Storage.empty, [], 4, 2⟩ = .ok (parts, s')
      ∧ s'.cur = (4, 4) := by
  have h := C6_cursor_roundtrip [4, 4, 4, 4] .linestring 2 Storage.empty []
    (by decide) (by decide) (by decide)
  simpa [xDeltas, yDeltas, xCells, yCells, zigzag] using h

/-- C3 fails on the code as universally stated: in the streaming decoder
the cursor update is a saturating addition, so an addition that
overflows downward pins the component at the smallest representable
value, not the largest; on the concrete linestring stream whose x deltas
sum below the signed 32-bit minimum the decoded coordinates carry the
minimum, which differs from the maximum the claim names. -/
theorem C3_counterexample :
    satAdd32 int32Min (-1) = int32Min
    ∧ int32Min ≠ int32Max
    ∧ parse_geometry_iter .linestring [17, 4294967295, 0, 1, 0]
        = .ok [Part.lineString ⟨[(-2147483648, 0), (-2147483648, 0)], 0⟩] := by
  refine ⟨by decide, by decide, ?_⟩
  have hgp : GeomType.linestring ≠ GeomType.point := by decide
  have e1 : satAdd32 0 (zigzag 4294967295) = -2147483648 := by decide
  have e2 : satAdd32 0 (zigzag 0) = 0 := by decide
  have e3 : satAdd32 (-2147483648) (zigzag 1) = -2147483648 := by decide
  show run .linestring [17, 4294967295, 0, 1, 0] initState = _
  unfold run
  simp only [runState, parse_step, initState, finish_parsing]
  norm_num [hgp, e1, e2, e3, Storage.push, Storage.empty]

/-- C3 amended: upward overflow of a cursor addition pins the component
at the signed 32-bit maximum in both decoders, and a delta run of
non-negative x deltas whose sum exceeds the maximum leaves the streaming
cursor x pinned there; downward overflow, however, pins the streaming
component at the signed 32-bit minimum while the eager decoder clips it
to the maximum. -/
theorem C3_amended :
    (∀ a b : ℤ, int32Max < a + b → satAdd32 a b = int32Max ∧ clippedAdd32 a b = int32Max)
    ∧ (∀ a b : ℤ, a + b < int32Min → satAdd32 a b = int32Min ∧ clippedAdd32 a b = int32Max)
    ∧ (∀ (params : List ℕ) (g : GeomType) (cid : ℕ) (st : Storage)
        (pending : List Storage),
        params.length % 2 = 0 →
        (∀ d ∈ xDeltas params, 0 ≤ d) →
        int32Max < (xDeltas params).sum →
        ∃ parts s', runState g params ⟨(0, 0), st, pending, params.length, cid⟩
            = .ok (parts, s')
          ∧ s'.cur.1 = int32Max) := by
  refine ⟨?_, ?_, ?_⟩
  · intro a b h
    exact ⟨satAdd32_pos_overflow a b h, clippedAdd32_overflow a b (Or.inr h)⟩
  · intro a b h
    exact ⟨satAdd32_neg_overflow a b h, clippedAdd32_overflow a b (Or.inl h)⟩
  · intro params g cid st pending h2 hnn hbig
    obtain ⟨parts, s', hrun, hcur, _⟩ :=
      runState_params_cursor g cid params (0, 0) st pending h2
    refine ⟨parts, s', hrun, ?_⟩
    rw [hcur]
    show (xDeltas params).foldl satAdd32 (((0 : ℤ), (0 : ℤ)) : ℤ × ℤ).1 = int32Max
    rw [show (((0 : ℤ), (0 : ℤ)) : ℤ × ℤ).1 = 0 from rfl]
    rw [foldl_satAdd_nonneg _ 0 hnn (by simp [int32Min]) (by simp [int32Max])]
    omega

/-- Closed instance of C3 as amended: a saturating and a clipped
overflowing addition, and a parameter run of two maximal positive x
deltas pinning the streaming cursor at the maximum. -/
theorem C3_witness :
    (satAdd32 2147483647 1 = int32Max ∧ clippedAdd32 2147483647 1 = int32Max)
    ∧ (satAdd32 (-2147483648) (-1) = int32Min ∧ clippedAdd32 (-2147483648) (-1) = int32Max)
    ∧ ∃ parts s', runState .linestring [4294967294, 0, 4294967294, 0]
        ⟨(0, 0), Storage.empty, [], 4, 2⟩ = .ok (parts, s')
      ∧ s'.cur.1 = int32Max :=
  ⟨C3_amended.1 2147483647 1 (by decide),
   C3_amended.2.1 (-2147483648) (-1) (by decide),
   by
    have h := C3_amended.2.2 [4294967294, 0, 4294967294, 0] .linestring 2
      Storage.empty [] (by decide) (by decide) (by decide)
    simpa using h⟩

theorem run_cons_ok (g : GeomType) (v : ℕ) (rest : List ℕ) (s : IterState)
    (parts : List Part) (s' : IterState)
    (h : parse_step g s v = .ok (parts, s')) :
    run g (v :: rest) s =
      match run g rest s' with
      | .error e => .error e
      | .ok parts' => .ok (parts ++ parts') := by
  unfold run
  rw [runState_cons_ok g v rest s parts s' h]
  cases hr : runState g rest s' with
  | error e => rfl
  | ok pr => obtain ⟨p2, s2⟩ := pr; rfl

theorem run_cons_error (g : GeomType) (v : ℕ) (rest : List ℕ) (s : IterState)
    (e : Err) (h : parse_step g s v = .error e) :
    run g (v :: rest) s = .error e := by
  unfold run
  rw [runState_cons_error g v rest s e h]

theorem run_polygon_rings : ∀ (data : List ℕ) (cur : ℤ × ℤ) (st : Storage)
    (pending : List Storage) (pc : ℕ) (cid : ℕ),
    run .polygon data ⟨cur, st, pending, pc, cid⟩ =
      match completed_rings data cur st pc with
      | none => .error .geometry
      | some rs => .ok (classify_rings pending rs)
  | [], cur, st, pending, pc, cid => by
    show Except.ok (finish_parsing .polygon st pending) = _
    unfold completed_rings
    cases pending <;> rfl
  | v :: rest, cur, st, pending, 0, cid => by
    have hpl : GeomType.polygon ≠ GeomType.linestring := by decide
    by_cases h1 : v % 8 = 1
    · have hstep : parse_step .polygon ⟨cur, st, pending, 0, cid⟩ v
          = .ok ([], ⟨cur, st, pending, v / 8 * 2, 1⟩) := by
        unfold parse_step
        simp [h1, hpl]
      have hcr : completed_rings (v :: rest) cur st 0
          = completed_rings rest cur st (v / 8 * 2) := by
        conv_lhs => unfold completed_rings
        simp [h1]
      rw [run_cons_ok _ _ _ _ _ _ hstep,
          run_polygon_rings rest cur st pending (v / 8 * 2) 1, hcr]
      cases hc : completed_rings rest cur st (v / 8 * 2) <;> simp
    · by_cases h2 : v % 8 = 2
      · have hstep : parse_step .polygon ⟨cur, st, pending, 0, cid⟩ v
            = .ok ([], ⟨cur, st, pending, v / 8 * 2, 2⟩) := by
          unfold parse_step
          simp [h1, h2]
        have hcr : completed_rings (v :: rest) cur st 0
            = completed_rings rest cur st (v / 8 * 2) := by
          conv_lhs => unfold completed_rings
          simp [h1, h2]
        rw [run_cons_ok _ _ _ _ _ _ hstep,
            run_polygon_rings rest cur st pending (v / 8 * 2) 2, hcr]
        cases hc : completed_rings rest cur st (v / 8 * 2) <;> simp
      · by_cases h7 : v % 8 = 7
        · by_cases hemp : st.coords.isEmpty
          · have hstep : parse_step .polygon ⟨cur, st, pending, 0, cid⟩ v
                = .error .geometry := by
              unfold parse_step
              simp [h1, h2, h7, hemp]
            have hcr : completed_rings (v :: rest) cur st 0 = none := by
              conv_lhs => unfold completed_rings
              simp [h1, h2, h7, hemp]
            rw [run_cons_error _ _ _ _ _ hstep, hcr]
          · have hcr : completed_rings (v :: rest) cur st 0
                = (completed_rings rest cur Storage.empty 0).map (st :: ·) := by
              conv_lhs => unfold completed_rings
              simp [h1, h2, h7, hemp]
            cases hpend : pending with
            | nil =>
              have hstep : parse_step .polygon ⟨cur, st, [], 0, cid⟩ v
                  = .ok ([], ⟨cur, Storage.empty, [st], 0, cid⟩) := by
                unfold parse_step
                simp [h1, h2, h7, hemp]
              rw [run_cons_ok _ _ _ _ _ _ hstep,
                  run_polygon_rings rest cur Storage.empty [st] 0 cid, hcr]
              cases hc : completed_rings rest cur Storage.empty 0 <;>
                simp [classify_rings]
            | cons p ps =>
              by_cases harea : 0 < st.get_accumulated_area
              · have hstep : parse_step .polygon ⟨cur, st, p :: ps, 0, cid⟩ v
                    = .ok ([Part.polygon p ps], ⟨cur, Storage.empty, [st], 0, cid⟩) := by
                  unfold parse_step
                  simp [h1, h2, h7, hemp, harea]
                rw [run_cons_ok _ _ _ _ _ _ hstep,
                    run_polygon_rings rest cur Storage.empty [st] 0 cid, hcr]
                cases hc : completed_rings rest cur Storage.empty 0 <;>
                  simp [classify_rings, harea]
              · have hstep : parse_step .polygon ⟨cur, st, p :: ps, 0, cid⟩ v
                    = .ok ([], ⟨cur, Storage.empty, p :: ps ++ [st], 0, cid⟩) := by
                  unfold parse_step
                  simp [h1, h2, h7, hemp, harea]
                rw [run_cons_ok _ _ _ _ _ _ hstep,
                    run_polygon_rings rest cur Storage.empty (p :: ps ++ [st]) 0 cid, hcr]
                cases hc : completed_rings rest cur Storage.empty 0 <;>
                  simp [classify_rings, harea]
        · have hstep : parse_step .polygon ⟨cur, st, pending, 0, cid⟩ v
              = .ok ([], ⟨cur, st, pending, 0, cid⟩) := by
            unfold parse_step
            simp [h1, h2, h7]
          have hcr : completed_rings (v :: rest) cur st 0
              = completed_rings rest cur st 0 := by
            conv_lhs => unfold completed_rings
            simp [h1, h2, h7]
          rw [run_cons_ok _ _ _ _ _ _ hstep,
              run_polygon_rings rest cur st pending 0 cid, hcr]
          cases hc : completed_rings rest cur st 0 <;> simp
  | v :: rest, cur, st, pending, n + 1, cid => by
    have hpp : GeomType.polygon ≠ GeomType.point := by decide
    by_cases hx : (n + 1) % 2 = 0
    · have hstep := parse_step_param_x .polygon cur st pending cid n v hx
      have hcr : completed_rings (v :: rest) cur st (n + 1)
          = completed_rings rest (satAdd32 cur.1 (zigzag v), cur.2) st n := by
        conv_lhs => unfold completed_rings
        simp [hx]
      rw [run_cons_ok _ _ _ _ _ _ hstep,
          run_polygon_rings rest (satAdd32 cur.1 (zigzag v), cur.2) st pending n cid,
          hcr]
      cases hc : completed_rings rest (satAdd32 cur.1 (zigzag v), cur.2) st n <;> simp
    · have hx1 : (n + 1) % 2 = 1 := by omega
      have hstep := parse_step_param_y_push .polygon cur st pending cid n v hx1
        (fun hc => hpp hc.1)
      have hcr : completed_rings (v :: rest) cur st (n + 1)
          = completed_rings rest (cur.1, satAdd32 cur.2 (zigzag v))
              (st.push (cur.1 : ℚ) ((satAdd32 cur.2 (zigzag v) : ℤ) : ℚ)) n := by
        conv_lhs => unfold completed_rings
        simp [hx]
      rw [run_cons_ok _ _ _ _ _ _ hstep,
          run_polygon_rings rest (cur.1, satAdd32 cur.2 (zigzag v))
            (st.push (cur.1 : ℚ) ((satAdd32 cur.2 (zigzag v) : ℤ) : ℚ)) pending n cid,
          hcr]
      cases hc : completed_rings rest (cur.1, satAdd32 cur.2 (zigzag v))
          (st.push (cur.1 : ℚ) ((satAdd32 cur.2 (zigzag v) : ℤ) : ℚ)) n <;> simp

theorem classify_rings_holes : ∀ (rest : List Storage) (p : Storage) (hs : List Storage),
    (∀ r ∈ rest, r.get_accumulated_area ≤ 0) →
    classify_rings (p :: hs) rest = [Part.polygon p (hs ++ rest)]
  | [], p, hs, _ => by simp [classify_rings]
  | r :: rs, p, hs, h => by
    have hr : ¬ 0 < r.get_accumulated_area := not_lt.mpr (h r (by simp))
    have hrec := classify_rings_holes rs p (hs ++ [r])
      (fun x hx => h x (by simp [hx]))
    calc classify_rings (p :: hs) (r :: rs)
        = classify_rings (p :: hs ++ [r]) rs := by
          rw [classify_rings]
          simp [hr]
      _ = [Part.polygon p ((hs ++ [r]) ++ rs)] := hrec
      _ = [Part.polygon p (hs ++ (r :: rs))] := by simp

/-- C5: for a Polygon command stream completing at least one ring via
ClosePath where every ring after the first has non-positive closed area,
the streaming decoder yields exactly one Polygon part whose exterior is
the first completed ring and whose holes are the later rings in their
original order; no positivity of the first ring is needed, since the
first completed ring becomes the pending exterior unconditionally. -/
theorem C5_polygon_assembly (data : List ℕ) (r1 : Storage) (rest : List Storage)
    (hr : completed_rings data (0, 0) Storage.empty 0 = some (r1 :: rest))
    (hh : ∀ r ∈ rest, r.get_accumulated_area ≤ 0) :
    parse_geometry_iter .polygon data = .ok [Part.polygon r1 rest] := by
  unfold parse_geometry_iter
  rw [if_neg (by decide)]
  show run .polygon data initState = _
  rw [show initState = (⟨(0, 0), Storage.empty, [], 0, 0⟩ : IterState) from rfl]
  rw [run_polygon_rings data (0, 0) Storage.empty [] 0 0, hr]
  show Except.ok (classify_rings [] (r1 :: rest)) = _
  rw [show classify_rings [] (r1 :: rest) = classify_rings [r1] rest from rfl]
  rw [classify_rings_holes rest r1 [] hh]
  rfl

/-- Closed instance of C5 on the single positive triangle ring of the
design scenarios. -/
theorem C5_witness :
    parse_geometry_iter .polygon [9, 0, 0, 18, 20, 0, 0, 20, 15]
      = .ok [Part.polygon ⟨[(0, 0), (10, 0), (10, 10)], 100⟩ []] := by
  have s1 : satAdd32 0 (zigzag 0) = 0 := by decide
  have s2 : satAdd32 0 (zigzag 20) = 10 := by decide
  have s3 : satAdd32 10 (zigzag 0) = 10 := by decide
  have hr : completed_rings [9, 0, 0, 18, 20, 0, 0, 20, 15] (0, 0) Storage.empty 0
      = some [⟨[(0, 0), (10, 0), (10, 10)], 100⟩] := by
    simp only [completed_rings]
    norm_num [s1, s2, s3, Storage.push, Storage.empty]
  exact C5_polygon_assembly [9, 0, 0, 18, 20, 0, 0, 20, 15]
    ⟨[(0, 0), (10, 0), (10, 10)], 100⟩ [] hr (by simp)

/-- C2 fails on the code: on a layer whose middle feature has no type
field, from_raw fails on that feature, the standard drain of the lazy
FeatureIterator ends at it, and the later feature, although it decodes
successfully, is never yielded. -/
theorem C2_skip_divergence :
    collect_features c2Layer = [⟨.point, [9, 4, 4], []⟩]
    ∧ from_raw c2Layer c2fBad = .error .ioParse
    ∧ (from_raw c2Layer c2f3).toOption.isSome = true := by
  refine ⟨rfl, rfl, rfl⟩

end Mvt
